import Mathlib

/-!
Shallow embedding of the classification-and-ledger core of `src/app.py`
(class `AIAccountant` and its helpers).  The database is modelled as the
in-memory list of inserted transactions; one attempted insert is modelled
by an `Except String Unit` parameter (`Except.error` standing for the
psycopg2 exception raised when the backend is unreachable or rejects the
statement).  Monetary values are exact rationals; report strings are kept
as lists of lines next to the joined string the code builds.
-/

namespace AIApp

/-- Timestamp with display fields, standing in for Python `datetime`:
`stamp` orders instants (`ORDER BY date`), `month`/`day` feed
`strftime "%m/%d"`. -/
structure DateTime where
  stamp : Nat
  month : Nat
  day : Nat
deriving DecidableEq

/-- One row of the `transactions` table (the `id` column is never read back,
so it is omitted). -/
structure Txn where
  date : DateTime
  description : String
  debit_account : String
  credit_account : String
  amount : ℚ
  ai_categorized : Bool
deriving DecidableEq

/-- Substring occurrence on character lists, modelling Python's `in` test
on `str`. -/
def hasSub (needle : List Char) : List Char → Bool
  | [] => needle.isEmpty
  | c :: rest => needle.isPrefixOf (c :: rest) || hasSub needle rest

/-- Python `needle in hay` for strings. -/
def containsSub (hay needle : String) : Bool :=
  hasSub needle.toList hay.toList

/-- Python `str.lower` (its ASCII behaviour, which is all the word lists
exercise). -/
def lowerStr (s : String) : String := ⟨s.data.map Char.toLower⟩

/-- Python `startswith`, modelling the SQL filter `LIKE 'Expenses:%'`. -/
def strStartsWith (s pre : String) : Bool := pre.data.isPrefixOf s.data

/-- Lexicographic-by-code-point comparison of character lists: the order
Python's `sorted` uses on strings. -/
def charsLe : List Char → List Char → Bool
  | [], _ => true
  | _ :: _, [] => false
  | a :: as, b :: bs => if a = b then charsLe as bs else decide (a < b)

/-- Python `a <= b` on strings. -/
def strLe (a b : String) : Bool := charsLe a.data b.data

/-- Two-digit zero padding, used for cents and for `%m` / `%d`. -/
def pad2 (n : Nat) : String :=
  if n < 10 then "0" ++ toString n else toString n

/-- Python `f"{x:.2f}"` on the exact rational value: fixed two decimal
places. -/
def fmt2 (q : ℚ) : String :=
  let c : Int := round (q * 100)
  (if c < 0 then "-" else "") ++ toString (c.natAbs / 100) ++ "." ++ pad2 (c.natAbs % 100)

/-- Numeric value of a digit string. -/
def digitsVal (ds : List Char) : Nat :=
  ds.foldl (fun a c => a * 10 + (c.toNat - 48)) 0

/-- Python `float` on a captured group of shape `digits ['.' digits]`. -/
def parseFloat (intPart fracPart : List Char) : ℚ :=
  (digitsVal intPart : ℚ) + (digitsVal fracPart : ℚ) / (10 : ℚ) ^ fracPart.length

/-- Greedy match of `\d+\.?\d*` at a position that starts with a digit:
the maximal digit run, then, when a dot follows, the dot's trailing digit
run as fractional part. -/
def matchNumber (cs : List Char) : List Char × List Char :=
  let d1 := cs.takeWhile Char.isDigit
  match cs.dropWhile Char.isDigit with
  | '.' :: rest => (d1, rest.takeWhile Char.isDigit)
  | _ => (d1, [])

/-- Leftmost match of `re.search(r'\$?(\d+\.?\d*)', text)`.  The optional
`$` sign never changes the captured group (the group starts at the first
digit), so the scan looks for the first digit of the text. -/
def scanAmount : List Char → Option (List Char × List Char)
  | [] => none
  | c :: rest => if c.isDigit then some (matchNumber (c :: rest)) else scanAmount rest

/-- `float(match.group(1))` of the first regex match, `none` when the text
has no match (`app.py` lines 123 and 151). -/
def extractAmount (text : String) : Option ℚ :=
  (scanAmount text.toList).map fun p => parseFloat p.1 p.2

/-- Keyword sub-classification of an expense (`record_expense`,
`app.py` lines 130-134). -/
def categorizeExpense (text : String) : String :=
  let l := lowerStr text
  if containsSub l "food" || containsSub l "lunch" || containsSub l "dinner" || containsSub l "coffee" then
    "Expenses:Food"
  else if containsSub l "gas" || containsSub l "uber" || containsSub l "taxi" || containsSub l "parking" then
    "Expenses:Transport"
  else
    "Expenses:General"

/-- Outcome of one attempted `INSERT` (`Except.error e` models the psycopg2
exception raised when the backend is unreachable or rejects the row). -/
abbrev InsertOutcome := Except String Unit

/-- `AIAccountant.record_expense` (`app.py` lines 119-146).  There is no
`try`/`except` around the database work, so a storage exception propagates
out as `Except.error`. -/
def record_expense (ins : InsertOutcome) (st : List Txn) (now : DateTime) (text : String) :
    Except String (List Txn × String) :=
  match extractAmount text with
  | none => .ok (st, "I couldn't find an amount. Please include a number like '$25' or '25.50'")
  | some amount =>
    let category := categorizeExpense text
    match ins with
    | .error e => .error e
    | .ok _ =>
      .ok (st ++ [⟨now, text, category, "Assets:Cash", amount, true⟩],
        "✓ Recorded: " ++ category ++ " $" ++ fmt2 amount ++ "\nDescription: " ++ text)

deriving instance DecidableEq for Except

/-- `AIAccountant.record_income` (`app.py` lines 148-166). -/
def record_income (ins : InsertOutcome) (st : List Txn) (now : DateTime) (text : String) :
    Except String (List Txn × String) :=
  match extractAmount text with
  | none => .ok (st, "I couldn't find an amount. Please include a number.")
  | some amount =>
    match ins with
    | .error e => .error e
    | .ok _ =>
      .ok (st ++ [⟨now, text, "Assets:Bank", "Revenue:Sales", amount, true⟩],
        "✓ Recorded income: $" ++ fmt2 amount ++ "\nDescription: " ++ text)

/-- Stable insertion into a list sorted by the Bool relation `le`. -/
def insertBy (le : α → α → Bool) (x : α) : List α → List α
  | [] => [x]
  | y :: ys => if le x y then x :: y :: ys else y :: insertBy le x ys

/-- Stable insertion sort, modelling Python `sorted` and the fixed
`ORDER BY` clauses of the three report queries. -/
def sortBy (le : α → α → Bool) : List α → List α
  | [] => []
  | x :: xs => insertBy le x (sortBy le xs)

/-- Sum of the `amount` column over a list of rows (`SUM(amount)`). -/
def sumAmounts (l : List Txn) : ℚ := (l.map (·.amount)).sum

/-- `SELECT key, SUM(amount) ... GROUP BY key`: one `(label, total)` row per
distinct key value. -/
def groupSumBy (key : Txn → String) (txns : List Txn) : List (String × ℚ) :=
  ((txns.map key).dedup).map fun a => (a, sumAmounts (txns.filter fun t => key t = a))

/-- `balances[account] = balances.get(account, 0) + amount` on one fetched
row (`get_balances`, `app.py` lines 198-201): Python-dict update keeping
first-insertion key order. -/
def updateAdd : List (String × ℚ) → String × ℚ → List (String × ℚ)
  | [], (a, v) => [(a, v)]
  | (b, w) :: rest, (a, v) =>
    if b = a then (b, w + v) :: rest else (b, w) :: updateAdd rest (a, v)

/-- Value of an association list at a key, `0` when absent
(Python `balances.get(account, 0)`). -/
def lookupD (l : List (String × ℚ)) (a : String) : ℚ :=
  match l with
  | [] => 0
  | (b, v) :: rest => if b = a then v else lookupD rest a

/-- The rows fetched by the balances query: per-debit-account sums
`UNION ALL` negated per-credit-account sums (`app.py` lines 182-196). -/
def balancesRows (txns : List Txn) : List (String × ℚ) :=
  groupSumBy (·.debit_account) txns
    ++ (groupSumBy (·.credit_account) txns).map fun p => (p.1, -p.2)

/-- The Python `balances` dict after the fetch loop. -/
def balancesDict (txns : List Txn) : List (String × ℚ) :=
  (balancesRows txns).foldl updateAdd []

/-- `sorted(balances.items())`: ascending by account name (keys are
distinct, so the tuple comparison is the key comparison). -/
def balancesSortedItems (txns : List Txn) : List (String × ℚ) :=
  sortBy (fun p q => strLe p.1 q.1) (balancesDict txns)

/-- The `(account, balance)` pairs that survive the `balance != 0` test. -/
def balancesShown (txns : List Txn) : List (String × ℚ) :=
  (balancesSortedItems txns).filter fun p => decide (p.2 ≠ 0)

/-- One printed balance line (`app.py` line 208). -/
def renderBalLine (p : String × ℚ) : String :=
  p.1 ++ ": $" ++ fmt2 |p.2| ++ " " ++ (if p.2 > 0 then "DR" else "CR")

/-- The lines of `AIAccountant.get_balances` below the header. -/
def get_balances_lines (txns : List Txn) : List String :=
  (balancesShown txns).map renderBalLine

/-- `AIAccountant.get_balances` (`app.py` lines 177-210). -/
def get_balances (txns : List Txn) : String :=
  "**Account Balances:**\n" ++ String.join ((get_balances_lines txns).map (· ++ "\n"))

/-- `date.strftime("%m/%d")`. -/
def dateStr (d : DateTime) : String := pad2 d.month ++ "/" ++ pad2 d.day

/-- The rows fetched by `ORDER BY date DESC LIMIT 5`
(`app.py` lines 217-222). -/
def recentRows (txns : List Txn) : List Txn :=
  (sortBy (fun a b => decide (b.date.stamp ≤ a.date.stamp)) txns).take 5

/-- One printed recent-transaction line (`app.py` line 228): the
description is cut to 30 characters and the ellipsis is appended
unconditionally. -/
def renderRecentLine (t : Txn) : String :=
  dateStr t.date ++ ": " ++ t.description.take 30 ++ "... $" ++ fmt2 t.amount

/-- The lines of `AIAccountant.get_recent_transactions` below the header. -/
def get_recent_lines (txns : List Txn) : List String :=
  (recentRows txns).map renderRecentLine

/-- `AIAccountant.get_recent_transactions` (`app.py` lines 212-231). -/
def get_recent_transactions (txns : List Txn) : String :=
  "**Recent Transactions:**\n" ++ String.join ((get_recent_lines txns).map (· ++ "\n"))

/-- The rows fetched by the expense-summary query: per-debit-account sums
over rows with `debit_account LIKE 'Expenses:%'`, `ORDER BY total DESC`
(`app.py` lines 238-244). -/
def expenseRows (txns : List Txn) : List (String × ℚ) :=
  sortBy (fun p q => decide (q.2 ≤ p.2))
    (groupSumBy (·.debit_account) (txns.filter fun t => strStartsWith t.debit_account "Expenses:"))

/-- The running `total` accumulated by the fetch loop
(`app.py` lines 247-252). -/
def expensesTotal (txns : List Txn) : ℚ :=
  (expenseRows txns).foldl (fun acc p => acc + p.2) 0

/-- One printed expense-summary line (`app.py` line 251). -/
def renderExpLine (p : String × ℚ) : String :=
  p.1 ++ ": $" ++ fmt2 p.2

/-- `AIAccountant.get_expenses_summary` (`app.py` lines 233-256). -/
def get_expenses_summary (txns : List Txn) : String :=
  "**Expense Summary:**\n"
    ++ String.join (((expenseRows txns).map renderExpLine).map (· ++ "\n"))
    ++ "\n**Total Expenses: $" ++ fmt2 (expensesTotal txns) ++ "**"

/-- `AIAccountant.handle_query` (`app.py` lines 168-175).  The report
queries only read, so they are total over the in-memory ledger. -/
def handle_query (st : List Txn) (text : String) : String :=
  if containsSub (lowerStr text) "balance" then get_balances st
  else if containsSub (lowerStr text) "expense" then get_expenses_summary st
  else get_recent_transactions st

/-- Outcome of the attempted model call in `process_natural_language`:
no configured client, an exception from the call, or a response text. -/
inductive AIOutcome where
  | noClient
  | raised
  | responded (r : String)

/-- The dispatch on the model's response text (`app.py` lines 96-101):
`"EXPENSE" in ai_response`, `elif "INCOME" in ai_response`, else the query
handler.  No `QUERY` token is ever tested. -/
def dispatchAI (r : String) (ins : InsertOutcome) (st : List Txn) (now : DateTime)
    (input : String) : Except String (List Txn × String) :=
  if containsSub r "EXPENSE" then record_expense ins st now input
  else if containsSub r "INCOME" then record_income ins st now input
  else .ok (st, handle_query st input)

/-- The keyword fallback of `process_natural_language`
(`app.py` lines 108-117). -/
def heuristicPath (ins : InsertOutcome) (st : List Txn) (now : DateTime) (input : String) :
    Except String (List Txn × String) :=
  let l := lowerStr input
  if containsSub l "bought" || containsSub l "paid" || containsSub l "spent" then
    record_expense ins st now input
  else if containsSub l "received" || containsSub l "earned" || containsSub l "got paid" then
    record_income ins st now input
  else if containsSub l "show" || containsSub l "what" || containsSub l "how much" || containsSub l "balance" then
    .ok (st, handle_query st input)
  else
    .ok (st, "I can help you record transactions or check balances. Try saying 'I spent $X on Y' or 'Show me my expenses'")

/-- `AIAccountant.process_natural_language` (`app.py` lines 79-117).  The
`try` block spans the model call and the dispatched handler, so any
exception inside it (including a storage exception) is caught and control
falls through to the keyword fallback. -/
def process_natural_language (ai : AIOutcome) (ins : InsertOutcome) (st : List Txn)
    (now : DateTime) (input : String) : Except String (List Txn × String) :=
  match ai with
  | .responded r =>
    match dispatchAI r ins st now input with
    | .ok res => .ok res
    | .error _ => heuristicPath ins st now input
  | .raised => heuristicPath ins st now input
  | .noClient => heuristicPath ins st now input

/-- Written from the spec's words for the refinement comparison: the sum
of amounts where the account is the debit account, minus the sum of
amounts where it is the credit account. -/
def balance_spec (txns : List Txn) (a : String) : ℚ :=
  ((txns.filter fun t => t.debit_account = a).map (·.amount)).sum
    - ((txns.filter fun t => t.credit_account = a).map (·.amount)).sum

/-- Sum of the values of the rows carrying a given label, used to relate
the dict fold to per-account sums. -/
def rowsSum (rows : List (String × ℚ)) (a : String) : ℚ :=
  ((rows.filter fun p => p.1 = a).map (·.2)).sum

/-! Lemmas about the embedded operations. -/

theorem mem_insertBy (le : α → α → Bool) (x : α) :
    ∀ (l : List α) (y : α), y ∈ insertBy le x l ↔ y = x ∨ y ∈ l
  | [], y => by simp [insertBy]
  | z :: zs, y => by
    by_cases h : le x z = true
    · simp [insertBy, h]
    · simp [insertBy, h, mem_insertBy le x zs y]
      tauto

theorem mem_sortBy (le : α → α → Bool) :
    ∀ (l : List α) (y : α), y ∈ sortBy le l ↔ y ∈ l
  | [], y => by simp [sortBy]
  | z :: zs, y => by
    simp only [sortBy, mem_insertBy, List.mem_cons, mem_sortBy le zs y]

theorem pairwise_insertBy (le : α → α → Bool)
    (htot : ∀ a b, le a b = true ∨ le b a = true)
    (htrans : ∀ a b c, le a b = true → le b c = true → le a c = true) (x : α) :
    ∀ l : List α, l.Pairwise (fun a b => le a b = true) →
      (insertBy le x l).Pairwise (fun a b => le a b = true)
  | [], _ => by simp [insertBy]
  | y :: ys, h => by
    rcases List.pairwise_cons.mp h with ⟨hy, hys⟩
    by_cases hxy : le x y = true
    · rw [insertBy, if_pos hxy]
      refine List.pairwise_cons.mpr ⟨?_, h⟩
      intro z hz
      rcases List.mem_cons.mp hz with rfl | hz
      · exact hxy
      · exact htrans x y z hxy (hy z hz)
    · rw [insertBy, if_neg hxy]
      refine List.pairwise_cons.mpr ⟨?_, pairwise_insertBy le htot htrans x ys hys⟩
      intro z hz
      rcases (mem_insertBy le x ys z).mp hz with h' | hz
      · rw [h']
        exact (htot x y).resolve_left hxy
      · exact hy z hz

theorem pairwise_sortBy (le : α → α → Bool)
    (htot : ∀ a b, le a b = true ∨ le b a = true)
    (htrans : ∀ a b c, le a b = true → le b c = true → le a c = true) :
    ∀ l : List α, (sortBy le l).Pairwise (fun a b => le a b = true)
  | [] => by simp [sortBy]
  | x :: xs => pairwise_insertBy le htot htrans x (sortBy le xs) (pairwise_sortBy le htot htrans xs)

theorem charsLe_total : ∀ as bs : List Char, charsLe as bs = true ∨ charsLe bs as = true
  | [], _ => by left; cases ‹List Char› <;> rfl
  | _ :: _, [] => by right; rfl
  | a :: as, b :: bs => by
    by_cases hab : a = b
    · subst hab
      simpa [charsLe] using charsLe_total as bs
    · rcases lt_or_gt_of_ne hab with h | h
      · left; simp [charsLe, hab, h]
      · right; simp [charsLe, Ne.symm hab, h]

theorem charsLe_trans :
    ∀ as bs cs : List Char, charsLe as bs = true → charsLe bs cs = true → charsLe as cs = true
  | [], _, _, _, _ => rfl
  | _ :: _, [], _, h, _ => by simp [charsLe] at h
  | _ :: _, _ :: _, [], _, h => by simp [charsLe] at h
  | a :: as, b :: bs, c :: cs, h1, h2 => by
    by_cases hab : a = b <;> by_cases hbc : b = c
    · subst hab; subst hbc
      simp only [charsLe, if_pos rfl] at h1 h2 ⊢
      exact charsLe_trans as bs cs h1 h2
    · subst hab
      simp [charsLe, hbc] at h2
      simp [charsLe, hbc, h2]
    · subst hbc
      simp [charsLe, hab] at h1
      simp [charsLe, hab, h1]
    · simp [charsLe, hab] at h1
      simp [charsLe, hbc] at h2
      have hac : a < c := lt_trans h1 h2
      simp [charsLe, ne_of_lt hac, hac]

theorem charsLe_not_lt : ∀ as bs : List Char, charsLe as bs = true → ¬ List.lt bs as
  | [], bs, _ => fun h => by cases h
  | _ :: _, [], h => by simp [charsLe] at h
  | a :: as, b :: bs, h => by
    intro hlt
    by_cases hab : a = b
    · subst hab
      simp only [charsLe, if_pos rfl] at h
      cases hlt with
      | head _ _ hba => exact lt_irrefl a hba
      | tail _ _ h' => exact charsLe_not_lt as bs h h'
    · simp [charsLe, hab] at h
      cases hlt with
      | head _ _ hba => exact absurd hba (lt_asymm h)
      | tail _ hab2 _ => exact absurd h hab2

theorem strLe_le {a b : String} (h : strLe a b = true) : a ≤ b := by
  intro hlt
  rw [String.lt_iff_toList_lt] at hlt
  exact charsLe_not_lt a.data b.data h ((List.lt_iff_lex_lt b.toList a.toList).mpr hlt)

theorem rowsSum_nil (a : String) : rowsSum [] a = 0 := rfl

theorem rowsSum_cons (p : String × ℚ) (rows : List (String × ℚ)) (a : String) :
    rowsSum (p :: rows) a = (if p.1 = a then p.2 else 0) + rowsSum rows a := by
  by_cases h : p.1 = a <;> simp [rowsSum, List.filter_cons, h]

theorem rowsSum_append (r1 r2 : List (String × ℚ)) (a : String) :
    rowsSum (r1 ++ r2) a = rowsSum r1 a + rowsSum r2 a := by
  simp [rowsSum, List.filter_append]

theorem rowsSum_map_neg (rows : List (String × ℚ)) (a : String) :
    rowsSum (rows.map fun p => (p.1, -p.2)) a = -rowsSum rows a := by
  induction rows with
  | nil => simp [rowsSum_nil]
  | cons p rows ih =>
    rw [List.map_cons, rowsSum_cons, rowsSum_cons, ih]
    by_cases h : p.1 = a <;> simp [h] <;> ring

theorem rowsSum_map_key (g : String → ℚ) (a : String) :
    ∀ l : List String, l.Nodup →
      rowsSum (l.map fun k => (k, g k)) a = if a ∈ l then g a else 0
  | [], _ => by simp [rowsSum_nil]
  | k :: l, h => by
    rcases List.nodup_cons.mp h with ⟨hk, hl⟩
    rw [List.map_cons, rowsSum_cons, rowsSum_map_key g a l hl]
    by_cases hka : k = a
    · subst hka
      simp [hk]
    · simp [hka, Ne.symm hka]

theorem sumAmounts_filter_of_not_mem (key : Txn → String) (txns : List Txn) (a : String)
    (h : a ∉ txns.map key) : sumAmounts (txns.filter fun t => key t = a) = 0 := by
  have : txns.filter (fun t => decide (key t = a)) = [] := by
    rw [List.filter_eq_nil_iff]
    intro t ht
    simp only [decide_eq_true_eq]
    intro hta
    exact h (List.mem_map.mpr ⟨t, ht, hta⟩)
  simp [sumAmounts, this]

theorem rowsSum_groupSumBy (key : Txn → String) (txns : List Txn) (a : String) :
    rowsSum (groupSumBy key txns) a = sumAmounts (txns.filter fun t => key t = a) := by
  rw [groupSumBy, rowsSum_map_key _ a _ (List.nodup_dedup _)]
  by_cases h : a ∈ (txns.map key).dedup
  · simp [h]
  · rw [if_neg h]
    exact (sumAmounts_filter_of_not_mem key txns a fun hm => h ((List.mem_dedup).mpr hm)).symm

theorem lookupD_updateAdd (l : List (String × ℚ)) (b : String) (v : ℚ) (a : String) :
    lookupD (updateAdd l (b, v)) a = lookupD l a + (if b = a then v else 0) := by
  induction l with
  | nil => by_cases h : b = a <;> simp [updateAdd, lookupD, h]
  | cons p rest ih =>
    obtain ⟨c, w⟩ := p
    by_cases hcb : c = b
    · by_cases hca : c = a
      · have hba : b = a := hcb.symm.trans hca
        simp [updateAdd, lookupD, hcb, hca, hba]
      · have hba : ¬ b = a := fun h => hca (hcb.trans h)
        simp [updateAdd, lookupD, hcb, hca, hba]
    · by_cases hca : c = a
      · have hba : ¬ b = a := fun h => hcb (hca.trans h.symm)
        have hab : ¬ a = b := fun h => hcb (hca.trans h)
        simp [updateAdd, lookupD, hcb, hca, hba, hab]
      · simp [updateAdd, lookupD, hcb, hca, ih]

theorem lookupD_foldl (rows : List (String × ℚ)) :
    ∀ (l : List (String × ℚ)) (a : String),
      lookupD (rows.foldl updateAdd l) a = lookupD l a + rowsSum rows a := by
  induction rows with
  | nil => intro l a; simp [rowsSum_nil]
  | cons p rows ih =>
    intro l a
    obtain ⟨b, v⟩ := p
    rw [List.foldl_cons, ih, lookupD_updateAdd, rowsSum_cons]
    ring

theorem lookupD_eq_zero (l : List (String × ℚ)) (a : String)
    (h : a ∉ l.map Prod.fst) : lookupD l a = 0 := by
  induction l with
  | nil => rfl
  | cons p rest ih =>
    simp only [List.map_cons, List.mem_cons, not_or] at h
    have : ¬ p.1 = a := fun h' => h.1 h'.symm
    obtain ⟨b, v⟩ := p
    simpa [lookupD, this] using ih h.2

theorem lookupD_balancesDict (txns : List Txn) (a : String) :
    lookupD (balancesDict txns) a = balance_spec txns a := by
  rw [balancesDict, lookupD_foldl, balancesRows, rowsSum_append, rowsSum_map_neg,
    rowsSum_groupSumBy, rowsSum_groupSumBy]
  show 0 + _ = _
  rw [zero_add, balance_spec, sumAmounts, sumAmounts]
  ring

theorem mem_keys_updateAdd (l : List (String × ℚ)) (b : String) (v : ℚ) (c : String) :
    c ∈ (updateAdd l (b, v)).map Prod.fst ↔ c ∈ l.map Prod.fst ∨ c = b := by
  induction l with
  | nil => simp [updateAdd]
  | cons p rest ih =>
    obtain ⟨d, w⟩ := p
    by_cases hdb : d = b
    · subst hdb
      simp [updateAdd, List.mem_cons]
      tauto
    · simp [updateAdd, hdb, List.mem_cons, ih]
      tauto

theorem keys_nodup_updateAdd (l : List (String × ℚ)) (b : String) (v : ℚ)
    (h : (l.map Prod.fst).Nodup) : ((updateAdd l (b, v)).map Prod.fst).Nodup := by
  induction l with
  | nil => simp [updateAdd]
  | cons p rest ih =>
    obtain ⟨d, w⟩ := p
    simp only [List.map_cons, List.nodup_cons] at h
    by_cases hdb : d = b
    · subst hdb
      simpa [updateAdd, List.nodup_cons] using h
    · simp only [updateAdd, if_neg hdb, List.map_cons, List.nodup_cons]
      refine ⟨fun hmem => ?_, ih h.2⟩
      rcases (mem_keys_updateAdd rest b v d).mp hmem with hm | hm
      · exact h.1 hm
      · exact hdb hm

theorem keys_nodup_foldl (rows : List (String × ℚ)) :
    ∀ l : List (String × ℚ), (l.map Prod.fst).Nodup →
      ((rows.foldl updateAdd l).map Prod.fst).Nodup := by
  induction rows with
  | nil => intro l h; exact h
  | cons p rows ih =>
    intro l h
    obtain ⟨b, v⟩ := p
    exact ih (updateAdd l (b, v)) (keys_nodup_updateAdd l b v h)

theorem balancesDict_keys_nodup (txns : List Txn) :
    ((balancesDict txns).map Prod.fst).Nodup :=
  keys_nodup_foldl (balancesRows txns) [] (by simp)

theorem lookupD_of_mem :
    ∀ (l : List (String × ℚ)), (l.map Prod.fst).Nodup →
      ∀ p : String × ℚ, p ∈ l → lookupD l p.1 = p.2
  | [], _, p, hp => absurd hp (List.not_mem_nil p)
  | q :: rest, h, p, hp => by
    obtain ⟨c, w⟩ := q
    simp only [List.map_cons, List.nodup_cons] at h
    rcases List.mem_cons.mp hp with rfl | hp
    · simp [lookupD]
    · have hc : ¬ c = p.1 := by
        intro hc
        exact h.1 (hc ▸ List.mem_map.mpr ⟨p, hp, rfl⟩)
      simpa [lookupD, hc] using lookupD_of_mem rest h.2 p hp

theorem foldl_add_snd (l : List (String × ℚ)) :
    ∀ init : ℚ, l.foldl (fun acc p => acc + p.2) init = init + (l.map Prod.snd).sum := by
  induction l with
  | nil => intro init; simp
  | cons p l ih =>
    intro init
    rw [List.foldl_cons, ih, List.map_cons, List.sum_cons]
    ring

theorem filter_filter_imp {α : Type} (P Q : α → Bool) (h : ∀ x, Q x = true → P x = true) :
    ∀ l : List α, (l.filter P).filter Q = l.filter Q
  | [] => rfl
  | x :: l => by
    by_cases hq : Q x = true
    · rw [List.filter_cons, if_pos (h x hq), List.filter_cons, if_pos hq,
        List.filter_cons, if_pos hq, filter_filter_imp P Q h l]
    · by_cases hp : P x = true
      · rw [List.filter_cons, if_pos hp, List.filter_cons, if_neg hq,
          List.filter_cons, if_neg hq, filter_filter_imp P Q h l]
      · rw [List.filter_cons, if_neg hp, List.filter_cons, if_neg hq,
          filter_filter_imp P Q h l]

theorem scanAmount_append_nodigit :
    ∀ l1 l2 : List Char, (∀ c ∈ l1, c.isDigit = false) →
      scanAmount (l1 ++ l2) = scanAmount l2
  | [], _, _ => rfl
  | c :: l1, l2, h => by
    rw [List.cons_append, scanAmount, if_neg, scanAmount_append_nodigit l1 l2]
    · intro d hd
      exact h d (List.mem_cons_of_mem c hd)
    · simp [h c (List.mem_cons_self c l1)]

theorem parseFloat_nonneg (d1 d2 : List Char) : 0 ≤ parseFloat d1 d2 := by
  rw [parseFloat]
  positivity

theorem extractAmount_nonneg {text : String} {q : ℚ} (h : extractAmount text = some q) :
    0 ≤ q := by
  rw [extractAmount] at h
  obtain ⟨p, _, rfl⟩ := Option.map_eq_some'.mp h
  exact parseFloat_nonneg p.1 p.2

theorem balancesShown_value (txns : List Txn) (p : String × ℚ) (hp : p ∈ balancesShown txns) :
    p.2 = balance_spec txns p.1 ∧ p.2 ≠ 0 := by
  have h1 := List.mem_filter.mp hp
  have hdict : p ∈ balancesDict txns := (mem_sortBy _ _ p).mp h1.1
  have hv := lookupD_of_mem (balancesDict txns) (balancesDict_keys_nodup txns) p hdict
  exact ⟨hv.symm.trans (lookupD_balancesDict txns p.1), of_decide_eq_true h1.2⟩

theorem mem_balancesShown_of_ne (txns : List Txn) (a : String)
    (h : balance_spec txns a ≠ 0) : a ∈ (balancesShown txns).map Prod.fst := by
  have hne : lookupD (balancesDict txns) a ≠ 0 := by
    rw [lookupD_balancesDict]; exact h
  have hmem : a ∈ (balancesDict txns).map Prod.fst := by
    by_contra hnm
    exact hne (lookupD_eq_zero _ a hnm)
  obtain ⟨p, hp, hpa⟩ := List.mem_map.mp hmem
  have hval : p.2 = balance_spec txns a := by
    have hv := lookupD_of_mem _ (balancesDict_keys_nodup txns) p hp
    rw [hpa] at hv
    exact hv.symm.trans (lookupD_balancesDict txns a)
  have hfil : p ∈ balancesShown txns :=
    List.mem_filter.mpr ⟨(mem_sortBy _ _ p).mpr hp, decide_eq_true (by rw [hval]; exact h)⟩
  exact List.mem_map.mpr ⟨p, hfil, hpa⟩

theorem balancesShown_sorted (txns : List Txn) :
    (balancesShown txns).Pairwise fun p q : String × ℚ => p.1 ≤ q.1 := by
  have h1 : (balancesSortedItems txns).Pairwise
      (fun p q : String × ℚ => strLe p.1 q.1 = true) := by
    refine pairwise_sortBy _ (fun p q => ?_) (fun p q r h1 h2 => ?_) _
    · exact charsLe_total p.1.data q.1.data
    · exact charsLe_trans p.1.data q.1.data r.1.data h1 h2
  exact ((h1.filter _).imp fun h => strLe_le h)

theorem groupSumBy_keys (key : Txn → String) (l : List Txn) :
    (groupSumBy key l).map Prod.fst = (l.map key).dedup := by
  simp [groupSumBy, List.map_map, Function.comp_def]

/-! The claim theorems. -/

section Claims

attribute [local semireducible] Rat.add Rat.mul Rat.inv Rat.sub Rat.ofScientific

set_option maxRecDepth 10000

/-- C1: the spec claims every heuristic-classified text containing an
income trigger ("received", "earned", "got paid") and a parseable amount
is recorded as income with debit `Assets:Bank` and credit `Revenue:Sales`,
and in particular that "Got paid $5000 from client project" is classified
as Income, not Expense.  The code checks the expense trigger list first
and the expense trigger "paid" is a substring of "got paid", so the
heuristic path records that exact text as an EXPENSE: the stored row has
debit `Expenses:General` and credit `Assets:Cash`.  The income trigger
"got paid" in the source is unreachable.  This theorem evaluates the
router at the failing input. -/
theorem got_paid_recorded_as_expense :
    process_natural_language .noClient (.ok ()) [] ⟨100, 3, 5⟩
        "Got paid $5000 from client project" =
      .ok ([⟨⟨100, 3, 5⟩, "Got paid $5000 from client project", "Expenses:General",
          "Assets:Cash", 5000, true⟩],
        "✓ Recorded: Expenses:General $5000.00\nDescription: Got paid $5000 from client project") := by
  decide

/-- C2 (counterexample): an AI response containing none of the tokens
EXPENSE, INCOME, QUERY does not make the router fall back to the heuristic
classifier.  On input "I spent $45 on groceries" with the unparseable
response "I am not sure", the router replies with the (empty)
recent-transactions report, while the heuristic-only path records an
expense and replies with a confirmation, so the final replies differ. -/
theorem unparseable_ai_reply_differs_from_heuristic :
    process_natural_language (.responded "I am not sure") (.ok ()) [] ⟨100, 3, 5⟩
        "I spent $45 on groceries" =
      .ok ([], "**Recent Transactions:**\n") ∧
    process_natural_language .noClient (.ok ()) [] ⟨100, 3, 5⟩ "I spent $45 on groceries" =
      .ok ([⟨⟨100, 3, 5⟩, "I spent $45 on groceries", "Expenses:General", "Assets:Cash",
          45, true⟩],
        "✓ Recorded: Expenses:General $45.00\nDescription: I spent $45 on groceries") ∧
    process_natural_language (.responded "I am not sure") (.ok ()) [] ⟨100, 3, 5⟩
        "I spent $45 on groceries" ≠
      process_natural_language .noClient (.ok ()) [] ⟨100, 3, 5⟩ "I spent $45 on groceries" := by
  refine ⟨by decide, by decide, by decide⟩

/-- C2 (amended): an AI response whose text contains neither "EXPENSE" nor
"INCOME" is routed to the query handler (the token QUERY is never tested),
so the reply is the query reply on the unchanged ledger; the parsing
failure is not surfaced to the user as an error.  The heuristic classifier
is consulted only when the model call raises or no client is
configured. -/
theorem unparseable_ai_routes_to_query :
    (∀ (r : String) (ins : InsertOutcome) (st : List Txn) (now : DateTime) (input : String),
      containsSub r "EXPENSE" = false → containsSub r "INCOME" = false →
        process_natural_language (.responded r) ins st now input =
          .ok (st, handle_query st input)) ∧
    (∀ (ins : InsertOutcome) (st : List Txn) (now : DateTime) (input : String),
      process_natural_language .raised ins st now input = heuristicPath ins st now input) ∧
    (∀ (ins : InsertOutcome) (st : List Txn) (now : DateTime) (input : String),
      process_natural_language .noClient ins st now input = heuristicPath ins st now input) := by
  refine ⟨?_, fun ins st now input => rfl, fun ins st now input => rfl⟩
  intro r ins st now input h1 h2
  simp [process_natural_language, dispatchAI, h1, h2]

theorem unparseable_ai_routes_to_query_witness :
    process_natural_language (.responded "I am not sure") (.ok ()) [] ⟨100, 3, 5⟩
        "I spent $45 on groceries" =
      .ok ([], handle_query [] "I spent $45 on groceries") :=
  unparseable_ai_routes_to_query.1 "I am not sure" (.ok ()) [] ⟨100, 3, 5⟩
    "I spent $45 on groceries" (by decide) (by decide)

/-- C3 (counterexample): a storage failure during a record-expense insert
is not surfaced as a plain-text error reply: there is no try/except around
the database work, so the exception escapes the handler and the whole
router uncaught (modelled as `Except.error`). -/
theorem storage_error_escapes_router :
    process_natural_language .noClient (.error "connection refused") [] ⟨100, 3, 5⟩
        "I spent $45 on groceries" =
      .error "connection refused" := by
  decide

/-- C3 (amended): when the storage backend rejects the insert of a text
with a parseable amount, `record_expense` and `record_income` propagate
the storage exception out of the handler unchanged instead of returning a
plain-text error reply. -/
theorem storage_error_propagates_from_handlers :
    (∀ (e : String) (st : List Txn) (now : DateTime) (text : String) (q : ℚ),
      extractAmount text = some q → record_expense (.error e) st now text = .error e) ∧
    (∀ (e : String) (st : List Txn) (now : DateTime) (text : String) (q : ℚ),
      extractAmount text = some q → record_income (.error e) st now text = .error e) := by
  constructor <;> intro e st now text q h <;> simp [record_expense, record_income, h]

theorem storage_error_propagates_from_handlers_witness :
    record_expense (.error "db down") [] ⟨100, 3, 5⟩ "I spent $45 on groceries" =
      .error "db down" :=
  storage_error_propagates_from_handlers.1 "db down" [] ⟨100, 3, 5⟩
    "I spent $45 on groceries" 45 (by decide)

/-- C4: the balances report computes every account's balance as the sum of
amounts where it is the debit account minus the sum where it is the credit
account (the dict built from the UNION ALL rows agrees with the spec-side
`balance_spec`), omits zero-balance accounts (every shown pair is nonzero
and every nonzero account is shown), lists accounts in ascending name
order, renders each line as the absolute value with two decimals suffixed
DR when positive and CR otherwise, and on the single $45
`Expenses:Food` / `Assets:Cash` expense produces exactly the lines
`Expenses:Food: $45.00 DR` and `Assets:Cash: $45.00 CR`. -/
theorem get_balances_correct :
    (∀ (txns : List Txn) (a : String),
      lookupD (balancesDict txns) a = balance_spec txns a) ∧
    (∀ (txns : List Txn) (p : String × ℚ), p ∈ balancesShown txns →
      p.2 = balance_spec txns p.1 ∧ p.2 ≠ 0) ∧
    (∀ (txns : List Txn) (a : String), balance_spec txns a ≠ 0 →
      a ∈ (balancesShown txns).map Prod.fst) ∧
    (∀ txns : List Txn, (balancesShown txns).Pairwise fun p q => p.1 ≤ q.1) ∧
    (∀ txns : List Txn, get_balances_lines txns = (balancesShown txns).map fun p =>
      p.1 ++ ": $" ++ fmt2 |p.2| ++ " " ++ (if p.2 > 0 then "DR" else "CR")) ∧
    get_balances_lines
        [⟨⟨100, 3, 5⟩, "I spent $45 on food", "Expenses:Food", "Assets:Cash", 45, true⟩] =
      ["Assets:Cash: $45.00 CR", "Expenses:Food: $45.00 DR"] :=
  ⟨lookupD_balancesDict, balancesShown_value, mem_balancesShown_of_ne,
    balancesShown_sorted, fun _ => rfl, by decide⟩

theorem get_balances_correct_witness :
    "Expenses:Food" ∈ (balancesShown
      [⟨⟨100, 3, 5⟩, "I spent $45 on food", "Expenses:Food", "Assets:Cash", 45, true⟩]).map
        Prod.fst :=
  get_balances_correct.2.2.1 _ "Expenses:Food" (by decide)

/-- C5: the response dispatch tests the token EXPENSE first, then INCOME;
a response lacking both goes to the query handler no matter whether QUERY
occurs in it, so the observable priority is EXPENSE before INCOME before
QUERY, and a response containing both EXPENSE and INCOME resolves to the
expense handler. -/
theorem ai_token_priority :
    (∀ (r : String) (ins : InsertOutcome) (st : List Txn) (now : DateTime) (input : String),
      containsSub r "EXPENSE" = true →
        dispatchAI r ins st now input = record_expense ins st now input) ∧
    (∀ (r : String) (ins : InsertOutcome) (st : List Txn) (now : DateTime) (input : String),
      containsSub r "EXPENSE" = false → containsSub r "INCOME" = true →
        dispatchAI r ins st now input = record_income ins st now input) ∧
    (∀ (r : String) (ins : InsertOutcome) (st : List Txn) (now : DateTime) (input : String),
      containsSub r "EXPENSE" = false → containsSub r "INCOME" = false →
        dispatchAI r ins st now input = .ok (st, handle_query st input)) ∧
    (∀ (ins : InsertOutcome) (st : List Txn) (now : DateTime) (input : String),
      dispatchAI "EXPENSE and also INCOME" ins st now input =
        record_expense ins st now input) := by
  refine ⟨?_, ?_, ?_, ?_⟩
  · intro r ins st now input h
    simp [dispatchAI, h]
  · intro r ins st now input h1 h2
    simp [dispatchAI, h1, h2]
  · intro r ins st now input h1 h2
    simp [dispatchAI, h1, h2]
  · intro ins st now input
    have h : containsSub "EXPENSE and also INCOME" "EXPENSE" = true := by decide
    simp [dispatchAI, h]

theorem ai_token_priority_witness :
    dispatchAI "EXPENSE INCOME QUERY" (.ok ()) [] ⟨100, 3, 5⟩ "I spent $45 on groceries" =
      record_expense (.ok ()) [] ⟨100, 3, 5⟩ "I spent $45 on groceries" :=
  ai_token_priority.1 "EXPENSE INCOME QUERY" (.ok ()) [] ⟨100, 3, 5⟩
    "I spent $45 on groceries" (by decide)

/-- C6: amount extraction is a deterministic function of the text (it is a
pure Lean function of the text alone); it returns the value of the first
substring matching the pattern, so any digit-free leading part of the text
is irrelevant and later numbers are ignored;
`extract_amount("I spent $45 on groceries") = 45` and
`extract_amount("I bought coffee for $4.50") = 4.50`. -/
theorem extractAmount_first_match :
    (∀ pre s : String, (∀ c ∈ pre.data, c.isDigit = false) →
      extractAmount (pre ++ s) = extractAmount s) ∧
    extractAmount "I spent $45 on groceries" = some 45 ∧
    extractAmount "I bought coffee for $4.50" = some (9 / 2) ∧
    extractAmount "$45 first and 99.5 later" = some 45 := by
  refine ⟨?_, by decide, by decide, by decide⟩
  intro pre s h
  have hd : (pre ++ s).data = pre.data ++ s.data := String.data_append pre s
  simp only [extractAmount, String.toList, hd, scanAmount_append_nodigit pre.data s.data h]

theorem extractAmount_first_match_witness :
    extractAmount ("I paid $" ++ "7.25") = extractAmount "7.25" :=
  extractAmount_first_match.1 "I paid $" "7.25" (by decide)

/-- C7: the recent-transactions report contains at most five lines, its
rows are ordered by date descending, every line renders the description
truncated to 30 characters with the ellipsis marker appended
unconditionally, and on a ledger holding one short-description
transaction the single line still carries the ellipsis. -/
theorem get_recent_correct :
    (∀ txns : List Txn, (get_recent_lines txns).length ≤ 5) ∧
    (∀ txns : List Txn,
      (recentRows txns).Pairwise fun a b => b.date.stamp ≤ a.date.stamp) ∧
    (∀ txns : List Txn, get_recent_lines txns = (recentRows txns).map fun t =>
      dateStr t.date ++ ": " ++ t.description.take 30 ++ "... $" ++ fmt2 t.amount) ∧
    get_recent_lines [⟨⟨100, 3, 5⟩, "Coffee", "Expenses:Food", "Assets:Cash", 9 / 2, true⟩] =
      ["03/05: Coffee... $4.50"] := by
  refine ⟨?_, ?_, fun txns => rfl, by decide⟩
  · intro txns
    rw [get_recent_lines, List.length_map, recentRows]
    exact le_trans (List.length_take_le 5 _) (le_refl 5)
  · intro txns
    rw [recentRows]
    have hp : (sortBy (fun a b : Txn => decide (b.date.stamp ≤ a.date.stamp)) txns).Pairwise
        (fun a b : Txn => decide (b.date.stamp ≤ a.date.stamp) = true) := by
      refine pairwise_sortBy _ (fun a b => ?_) (fun a b c h1 h2 => ?_) txns
      · rcases le_total b.date.stamp a.date.stamp with h | h
        · exact Or.inl (decide_eq_true h)
        · exact Or.inr (decide_eq_true h)
      · exact decide_eq_true (le_trans (of_decide_eq_true h2) (of_decide_eq_true h1))
    exact (hp.sublist (List.take_sublist 5 _)).imp fun h => of_decide_eq_true h

/-- C8: the expense summary lists exactly the accounts that occur as a
debit account starting with `Expenses:`, each with the sum of the matching
amounts, sorted by total descending, and the trailing total accumulated by
the loop equals the arithmetic sum of the listed per-account totals. -/
theorem get_expenses_summary_correct :
    (∀ (txns : List Txn) (a : String), a ∈ (expenseRows txns).map Prod.fst ↔
      ∃ t ∈ txns, t.debit_account = a ∧ strStartsWith a "Expenses:" = true) ∧
    (∀ txns : List Txn, (expenseRows txns).Pairwise fun p q => q.2 ≤ p.2) ∧
    (∀ txns : List Txn, expensesTotal txns = ((expenseRows txns).map Prod.snd).sum) ∧
    (∀ (txns : List Txn) (p : String × ℚ), p ∈ expenseRows txns →
      p.2 = sumAmounts (txns.filter fun t => t.debit_account = p.1)) := by
  refine ⟨?_, ?_, ?_, ?_⟩
  · intro txns a
    constructor
    · intro h
      obtain ⟨p, hp, rfl⟩ := List.mem_map.mp h
      have hp' := (mem_sortBy _ _ p).mp hp
      have hk : p.1 ∈ (groupSumBy (·.debit_account)
          (txns.filter fun t => strStartsWith t.debit_account "Expenses:")).map Prod.fst :=
        List.mem_map_of_mem Prod.fst hp'
      rw [groupSumBy_keys, List.mem_dedup] at hk
      obtain ⟨t, ht, hta⟩ := List.mem_map.mp hk
      have htf := List.mem_filter.mp ht
      exact ⟨t, htf.1, hta, hta ▸ htf.2⟩
    · rintro ⟨t, ht, hta, hs⟩
      have htf : t ∈ txns.filter fun t => strStartsWith t.debit_account "Expenses:" :=
        List.mem_filter.mpr ⟨ht, by rw [hta]; exact hs⟩
      have hk : a ∈ ((txns.filter fun t =>
          strStartsWith t.debit_account "Expenses:").map (·.debit_account)).dedup :=
        List.mem_dedup.mpr (List.mem_map.mpr ⟨t, htf, hta⟩)
      rw [← groupSumBy_keys] at hk
      obtain ⟨p, hp, hpa⟩ := List.mem_map.mp hk
      exact List.mem_map.mpr ⟨p, (mem_sortBy _ _ p).mpr hp, hpa⟩
  · intro txns
    rw [expenseRows]
    have hp : (sortBy (fun p q : String × ℚ => decide (q.2 ≤ p.2))
        (groupSumBy (·.debit_account)
          (txns.filter fun t => strStartsWith t.debit_account "Expenses:"))).Pairwise
        (fun p q : String × ℚ => decide (q.2 ≤ p.2) = true) := by
      refine pairwise_sortBy _ (fun p q => ?_) (fun p q r h1 h2 => ?_) _
      · rcases le_total q.2 p.2 with h | h
        · exact Or.inl (decide_eq_true h)
        · exact Or.inr (decide_eq_true h)
      · exact decide_eq_true (le_trans (of_decide_eq_true h2) (of_decide_eq_true h1))
    exact hp.imp fun h => of_decide_eq_true h
  · intro txns
    rw [expensesTotal, foldl_add_snd, zero_add]
  · intro txns p hp
    have hp' := (mem_sortBy _ _ p).mp hp
    obtain ⟨k, hk, hkp⟩ := List.mem_map.mp hp'
    subst hkp
    have hsk : strStartsWith k "Expenses:" = true := by
      rw [List.mem_dedup] at hk
      obtain ⟨t, ht, hta⟩ := List.mem_map.mp hk
      have htf := List.mem_filter.mp ht
      exact hta ▸ htf.2
    exact congrArg sumAmounts (filter_filter_imp
      (fun t => strStartsWith t.debit_account "Expenses:")
      (fun t => decide (t.debit_account = k))
      (fun t h => by
        have h' : t.debit_account = k := of_decide_eq_true h
        show strStartsWith t.debit_account "Expenses:" = true
        rw [h']
        exact hsk) txns)

theorem get_expenses_summary_correct_witness :
    ("Expenses:Food", (45 : ℚ)).2 = sumAmounts
      ([⟨⟨100, 3, 5⟩, "lunch", "Expenses:Food", "Assets:Cash", 45, true⟩].filter
        fun t => t.debit_account = ("Expenses:Food", (45 : ℚ)).1) :=
  get_expenses_summary_correct.2.2.2
    [⟨⟨100, 3, 5⟩, "lunch", "Expenses:Food", "Assets:Cash", 45, true⟩]
    ("Expenses:Food", 45) (by decide)

/-- C9: when the text of a record-expense or record-income request has no
parseable amount, the handler returns the fixed "couldn't find an amount"
message and performs no ledger write: the returned transaction list is the
input list unchanged, for any storage state. -/
theorem no_amount_fixed_reply_no_write :
    (∀ (ins : InsertOutcome) (st : List Txn) (now : DateTime) (text : String),
      extractAmount text = none →
        record_expense ins st now text =
          .ok (st, "I couldn't find an amount. Please include a number like '$25' or '25.50'")) ∧
    (∀ (ins : InsertOutcome) (st : List Txn) (now : DateTime) (text : String),
      extractAmount text = none →
        record_income ins st now text =
          .ok (st, "I couldn't find an amount. Please include a number.")) := by
  constructor <;> intro ins st now text h <;> simp [record_expense, record_income, h]

theorem no_amount_fixed_reply_no_write_witness :
    record_expense (.ok ()) [] ⟨100, 3, 5⟩ "I spent money on coffee" =
      .ok ([], "I couldn't find an amount. Please include a number like '$25' or '25.50'") :=
  no_amount_fixed_reply_no_write.1 (.ok ()) [] ⟨100, 3, 5⟩ "I spent money on coffee" (by decide)

/-- C10: every transaction the handlers insert has a non-negative amount:
the captured group of the amount regex is an unsigned digit string, so the
extracted value is always at least zero, any transaction present after a
successful handler call was either already stored or has a non-negative
amount, a text with a negated dollar amount "-$45" still extracts 45, and
"$0" extracts 0 (strict positivity is not guaranteed). -/
theorem inserted_amounts_nonneg :
    (∀ (text : String) (q : ℚ), extractAmount text = some q → 0 ≤ q) ∧
    (∀ (ins : InsertOutcome) (st : List Txn) (now : DateTime) (text : String)
        (res : List Txn × String), record_expense ins st now text = .ok res →
      ∀ t ∈ res.1, t ∈ st ∨ 0 ≤ t.amount) ∧
    (∀ (ins : InsertOutcome) (st : List Txn) (now : DateTime) (text : String)
        (res : List Txn × String), record_income ins st now text = .ok res →
      ∀ t ∈ res.1, t ∈ st ∨ 0 ≤ t.amount) ∧
    extractAmount "I was charged -$45 fee" = some 45 ∧
    extractAmount "add $0 entry" = some 0 := by
  refine ⟨fun text q h => extractAmount_nonneg h, ?_, ?_, by decide, by decide⟩
  · intro ins st now text res h t ht
    cases hx : extractAmount text with
    | none =>
      simp only [record_expense, hx] at h
      cases h
      exact Or.inl ht
    | some q =>
      cases ins with
      | error e => simp [record_expense, hx] at h
      | ok u =>
        simp only [record_expense, hx] at h
        cases h
        rcases List.mem_append.mp ht with h1 | h2
        · exact Or.inl h1
        · right
          rw [List.mem_singleton.mp h2]
          exact extractAmount_nonneg hx
  · intro ins st now text res h t ht
    cases hx : extractAmount text with
    | none =>
      simp only [record_income, hx] at h
      cases h
      exact Or.inl ht
    | some q =>
      cases ins with
      | error e => simp [record_income, hx] at h
      | ok u =>
        simp only [record_income, hx] at h
        cases h
        rcases List.mem_append.mp ht with h1 | h2
        · exact Or.inl h1
        · right
          rw [List.mem_singleton.mp h2]
          exact extractAmount_nonneg hx

theorem inserted_amounts_nonneg_witness :
    (0 : ℚ) ≤ 45 ∧
    ((⟨⟨100, 3, 5⟩, "I was charged -$45 fee", "Expenses:General", "Assets:Cash", 45, true⟩ : Txn)
        ∈ ([] : List Txn) ∨
      (0 : ℚ) ≤ (45 : ℚ)) :=
  ⟨inserted_amounts_nonneg.1 "I was charged -$45 fee" 45 (by decide),
    inserted_amounts_nonneg.2.1 (.ok ()) [] ⟨100, 3, 5⟩ "I was charged -$45 fee"
      ([⟨⟨100, 3, 5⟩, "I was charged -$45 fee", "Expenses:General", "Assets:Cash", 45, true⟩],
        "✓ Recorded: Expenses:General $45.00\nDescription: I was charged -$45 fee")
      (by decide)
      ⟨⟨100, 3, 5⟩, "I was charged -$45 fee", "Expenses:General", "Assets:Cash", 45, true⟩
      (by decide)⟩

end Claims

end AIApp
